import Mathlib

/-!
Verification of the real-time conversation engine of the univibe repository.

The reply codec (`formatReplyContent` / `parseReply`), the per-conversation
message-list event handlers, the mark-seen batch update, the group typing
indicator and the inbox insert handler are embedded as executable Lean
functions, translated from `src/unnamed/part_004`, `src/unnamed/part_009`
and `src/pages/ChatListPage.tsx`.  Text is modelled as `List Char`.
-/

namespace Univibe

/-! ## Decimal digits (model of how JSON.stringify prints a number) -/

/-- One decimal digit character to its value; non-digits map to 10. -/
def digitVal (c : Char) : Nat :=
  if c = '0' then 0 else if c = '1' then 1 else if c = '2' then 2
  else if c = '3' then 3 else if c = '4' then 4 else if c = '5' then 5
  else if c = '6' then 6 else if c = '7' then 7 else if c = '8' then 8
  else if c = '9' then 9 else 10

/-- Whether a character is a decimal digit. -/
def isDig (c : Char) : Bool := digitVal c < 10

/-- The character for one decimal digit. -/
def digitChar : Nat → Char
  | 0 => '0' | 1 => '1' | 2 => '2' | 3 => '3' | 4 => '4'
  | 5 => '5' | 6 => '6' | 7 => '7' | 8 => '8' | _ => '9'

/-- Most-significant-first decimal digits of a positive number; the first
argument is recursion fuel (any fuel at least the number works). -/
def natToDigitsAux : Nat → Nat → List Char
  | _, 0 => []
  | 0, _ + 1 => []
  | fuel + 1, n + 1 =>
    natToDigitsAux fuel ((n + 1) / 10) ++ [digitChar ((n + 1) % 10)]

/-- Canonical decimal rendering of a natural number, as JSON.stringify
prints a non-negative integer. -/
def natToDigits (n : Nat) : List Char :=
  if n = 0 then ['0'] else natToDigitsAux n n

/-- Value of a most-significant-first digit-character list. -/
def valBE (ds : List Char) : Nat :=
  ds.foldl (fun a c => a * 10 + digitVal c) 0

/-- Consume a maximal run of digit characters, accumulating their value. -/
def goDigits : List Char → Nat → Nat × List Char
  | c :: rest, acc =>
    if isDig c then goDigits rest (acc * 10 + digitVal c) else (acc, c :: rest)
  | [], acc => (acc, [])

/-- Parse a JSON non-negative integer (no leading zeros, as in the JSON
grammar used by `JSON.parse`). -/
def parseDigits : List Char → Option (Nat × List Char)
  | [] => none
  | c :: rest =>
    if c = '0' then some (0, rest)
    else if isDig c then some (goDigits rest (digitVal c))
    else none

/-! ## JSON strings -/

/-- JSON string escaping as performed by `JSON.stringify` for the
characters relevant here: quote and backslash get a backslash escape,
other characters are copied verbatim. -/
def escapeJson : List Char → List Char
  | [] => []
  | c :: s => (if c = '"' ∨ c = '\\' then ['\\', c] else [c]) ++ escapeJson s

/-- The single-character JSON string escapes accepted by `JSON.parse`
after a backslash; anything else (except the u-escape, handled
separately) is a parse error. -/
def escChar (c : Char) : Option Char :=
  if c = '"' then some '"'
  else if c = '\\' then some '\\'
  else if c = '/' then some '/'
  else if c = 'b' then some '\x08'
  else if c = 'f' then some '\x0c'
  else if c = 'n' then some '\n'
  else if c = 'r' then some '\r'
  else if c = 't' then some '\t'
  else none

/-- Value of one hexadecimal digit; non-hex characters map to 16. -/
def hexVal (c : Char) : Nat :=
  if c = '0' then 0 else if c = '1' then 1 else if c = '2' then 2
  else if c = '3' then 3 else if c = '4' then 4 else if c = '5' then 5
  else if c = '6' then 6 else if c = '7' then 7 else if c = '8' then 8
  else if c = '9' then 9
  else if c = 'a' ∨ c = 'A' then 10
  else if c = 'b' ∨ c = 'B' then 11
  else if c = 'c' ∨ c = 'C' then 12
  else if c = 'd' ∨ c = 'D' then 13
  else if c = 'e' ∨ c = 'E' then 14
  else if c = 'f' ∨ c = 'F' then 15
  else 16

/-- Whether a character is a hexadecimal digit. -/
def isHex (c : Char) : Bool := hexVal c < 16

/-- Parse the remainder of a JSON string (after the opening quote) up to
and including the closing quote, undoing the JSON string escapes as
`JSON.parse` does: the single-character escapes of `escChar` and the
four-hex-digit u-escape (so for instance a backslash-u005d sequence in
the stored payload decodes to the bracket character). -/
def parseJsonString : List Char → Option (List Char × List Char)
  | [] => none
  | c :: rest =>
    if c = '"' then some ([], rest)
    else if c = '\\' then
      match rest with
      | [] => none
      | e :: rest' =>
        if e = 'u' then
          match rest' with
          | h1 :: h2 :: h3 :: h4 :: rest2 =>
            if isHex h1 && isHex h2 && isHex h3 && isHex h4 then
              (parseJsonString rest2).map (fun p =>
                (Char.ofNat
                  (((hexVal h1 * 16 + hexVal h2) * 16 + hexVal h3) * 16 +
                    hexVal h4) :: p.1, p.2))
            else none
          | _ => none
        else
          match escChar e with
          | some d => (parseJsonString rest').map (fun p => (d :: p.1, p.2))
          | none => none
    else (parseJsonString rest).map (fun p => (c :: p.1, p.2))

/-- Whether the first list occurs at the start of the second. -/
def isPre : List Char → List Char → Bool
  | [], _ => true
  | _ :: _, [] => false
  | a :: as, b :: bs => a = b && isPre as bs

/-- Whether the first list occurs as a contiguous segment of the second. -/
def containsSeg (pat : List Char) : List Char → Bool
  | [] => pat.isEmpty
  | c :: t => isPre pat (c :: t) || containsSeg pat t

/-- Consume an exact literal from the front of the input. -/
def expectLit (lit s : List Char) : Option (List Char) :=
  if isPre lit s then some (s.drop lit.length) else none

/-! ## The reply envelope and its JSON serialization

`ReplyInfo` is built at the call sites of `formatReplyContent` as the
object literal `{ id, content, senderId, senderName }`, so
`JSON.stringify` prints its fields in exactly that order. -/

/-- The reply envelope embedded in a message body
(`ReplyInfo` in `src/types`). -/
structure ReplyInfo where
  id : Nat
  content : List Char
  senderId : List Char
  senderName : List Char
deriving DecidableEq, Repr

/-- Literal between the opening brace and the id value. -/
def litIdKey : List Char := "\x7b\"id\":".data

/-- Literal between the id value and the content string. -/
def litContentKey : List Char := ",\"content\":\"".data

/-- Literal between the content string and the senderId string. -/
def litSenderIdKey : List Char := ",\"senderId\":\"".data

/-- Literal between the senderId string and the senderName string. -/
def litSenderNameKey : List Char := ",\"senderName\":\"".data

/-- The closing brace of the serialized envelope. -/
def litClose : List Char := "\x7d".data

/-- `JSON.stringify` on a reply envelope object. -/
def jsonStringify (r : ReplyInfo) : List Char :=
  litIdKey ++ natToDigits r.id ++
  litContentKey ++ escapeJson r.content ++
  '"' :: litSenderIdKey ++ escapeJson r.senderId ++
  '"' :: litSenderNameKey ++ escapeJson r.senderName ++
  '"' :: litClose

/-- Model of `JSON.parse` on the delimited payload.  It accepts the
object shape the codec stores — the four fields in their serialization
order, integer id without leading zeros, and string values with the
standard JSON escapes of `parseJsonString` including u-escapes.  Inputs
outside this subset (reordered fields, whitespace variants, other number
forms) yield `none` and hence the graceful fallback of `parseReply`;
every string `JSON.parse` throws on also yields `none`, so the failure
set is a superset of the real parse errors. -/
def jsonParse (s : List Char) : Option ReplyInfo :=
  match expectLit litIdKey s with
  | none => none
  | some s1 =>
  match parseDigits s1 with
  | none => none
  | some (n, s2) =>
  match expectLit litContentKey s2 with
  | none => none
  | some s3 =>
  match parseJsonString s3 with
  | none => none
  | some (content, s4) =>
  match expectLit litSenderIdKey s4 with
  | none => none
  | some s5 =>
  match parseJsonString s5 with
  | none => none
  | some (senderId, s6) =>
  match expectLit litSenderNameKey s6 with
  | none => none
  | some s7 =>
  match parseJsonString s7 with
  | none => none
  | some (senderName, s8) =>
  match expectLit litClose s8 with
  | none => none
  | some s9 =>
  if s9 = [] then some ⟨n, content, senderId, senderName⟩ else none

/-! ## The reply codec (`formatReplyContent` / `parseReply`)

From `src/unnamed/part_004` lines 14-43 (identical copies in
`src/unnamed/part_009` and `src/pages/ChatListPage.tsx`):

    const REPLY_PREFIX = '[REPLY::';
    const REPLY_SUFFIX = '::REPLY]';
    const REPLY_REGEX = /^\[REPLY::(.*?)::REPLY\](.*)$/s;
-/

/-- The opening delimiter token `[REPLY::`. -/
def replyPre : List Char := ['[', 'R', 'E', 'P', 'L', 'Y', ':', ':']

/-- The closing delimiter token `::REPLY]`. -/
def replySuf : List Char := [':', ':', 'R', 'E', 'P', 'L', 'Y', ']']

/-- Split the input at the first occurrence of `pat`, returning what is
before it and what is after it.  This is what the lazy group `(.*?)`
followed by the literal delimiter computes in the reply regex. -/
def splitOnFirst (pat : List Char) : List Char → Option (List Char × List Char)
  | [] => none
  | c :: t =>
    if isPre pat (c :: t) then some ([], (c :: t).drop pat.length)
    else
      match splitOnFirst pat t with
      | some (a, b) => some (c :: a, b)
      | none => none

/-- The match of `REPLY_REGEX`: the input must start with `[REPLY::`, and
the group before the first `::REPLY]` plus the remainder are returned. -/
def replyMatch (s : List Char) : Option (List Char × List Char) :=
  if isPre replyPre s then splitOnFirst replySuf (s.drop replyPre.length)
  else none

/-- `formatReplyContent` from the source: prefix, serialized envelope,
suffix, then the plain body. -/
def formatReplyContent (replyInfo : ReplyInfo) (mainContent : List Char) : List Char :=
  replyPre ++ jsonStringify replyInfo ++ replySuf ++ mainContent

/-- `parseReply` from the source.  A `none` content (the nullable column)
and the empty string are both falsy in JS and yield `(null, '')`; a
failed regex match or a failed JSON parse fall back to the original
content. -/
def parseReply (content : Option (List Char)) : Option ReplyInfo × List Char :=
  match content with
  | none => (none, [])
  | some s =>
    if s = [] then (none, [])
    else
      match replyMatch s with
      | none => (none, s)
      | some (jsonPart, mainContent) =>
        match jsonParse jsonPart with
        | some replyInfo => (some replyInfo, mainContent)
        | none => (none, s)

/-! ## Messages and the per-conversation visible list

From the `ChatPage` component in `src/unnamed/part_004`: the realtime
`postgres_changes` handlers (lines 324-343), the local append after the
insert acknowledgment (lines 451-463) and `markMessagesAsSeen`
(lines 248-261). -/

/-- A row of the `messages` table, with the fields the claims touch.
Timestamps are modelled as naturals. -/
structure Message where
  id : Nat
  sender_id : List Char
  receiver_id : List Char
  content : Option (List Char)
  created_at : Nat
  is_seen : Bool
deriving DecidableEq, Repr

/-- The realtime INSERT handler: a message whose id is already in the
visible list is dropped, otherwise it is appended at the tail. -/
def insertHandler (msgs : List Message) (m : Message) : List Message :=
  if msgs.any (fun x => x.id == m.id) then msgs else msgs ++ [m]

/-- The realtime UPDATE handler: replace the entry with the payload's id
by the payload, in place. -/
def updateHandler (msgs : List Message) (m : Message) : List Message :=
  msgs.map (fun x => if x.id == m.id then m else x)

/-- The realtime DELETE handler: remove the entry with the deleted id. -/
def deleteHandler (msgs : List Message) (i : Nat) : List Message :=
  msgs.filter (fun x => x.id != i)

/-- The local append `setMessages(current => [...current, insertedMessage])`
performed after the insert acknowledgment resolves.  Note it performs no
id check. -/
def localSendAppend (msgs : List Message) (m : Message) : List Message :=
  msgs ++ [m]

/-- Outcome of the awaited `insert(...).select().single()` round trip. -/
inductive SendResult where
  | ack (m : Message)
  | failure
deriving DecidableEq, Repr

/-- `handleSendMessage` (non-edit, no-attachment path) as a function of
the visible list, the trimmed draft, and the round-trip outcome; returns
the new visible list and the new input-field text.  An empty draft is
rejected locally; on success the acknowledged row is appended and the
input cleared; on failure the state is left as it was (an alert is
shown). -/
def handleSendMessage (msgs : List Message) (draft : List Char)
    (r : SendResult) : List Message × List Char :=
  if draft = [] then (msgs, draft)
  else
    match r with
    | .ack m => (msgs ++ [m], [])
    | .failure => (msgs, draft)

/-- `handleUpdateMessage`: the new stored content for an edit, re-encoding
the envelope parsed from the old content (if any) with the new body. -/
def handleUpdateMessage (oldContent : Option (List Char))
    (newContent : List Char) : List Char :=
  match (parseReply oldContent).1 with
  | some replyInfo => formatReplyContent replyInfo newContent
  | none => newContent

/-- The row-level effect of the batched update of `markMessagesAsSeen`:
the WHERE clause (receiver is the viewer, sender is the peer of the open
conversation, not yet seen) and the SET clause (mark seen). -/
def markRow (viewerId peerId : List Char) (m : Message) : Message :=
  if m.receiver_id = viewerId ∧ m.sender_id = peerId ∧ m.is_seen = false
  then { m with is_seen := true } else m

/-- `markMessagesAsSeen`: a no-op when the document is hidden, otherwise
one batched update applying `markRow` to every row of the table at once
(a single UPDATE statement, not one call per message). -/
def markMessagesAsSeen (hidden : Bool) (viewerId peerId : List Char)
    (tbl : List Message) : List Message :=
  if hidden then tbl else tbl.map (markRow viewerId peerId)

/-- Ascending (created_at, id) order between messages: created_at first,
id as the tie-break. -/
def keyLe (a b : Message) : Prop :=
  a.created_at < b.created_at ∨ (a.created_at = b.created_at ∧ a.id ≤ b.id)

instance : DecidableRel keyLe := fun a b => by
  unfold keyLe; infer_instance

/-- The visible list sorted ascending by (created_at, id). -/
def SortedByKey (msgs : List Message) : Prop :=
  List.Pairwise keyLe msgs

instance : DecidablePred SortedByKey := fun msgs => by
  unfold SortedByKey; infer_instance

/-! ## Group typing indicator (`GroupChatPage` in `src/pages/ChatListPage.tsx`) -/

/-- The `' and '` separator of `Array.prototype.join`. -/
def sepAnd : List Char := " and ".data

/-- `join(' and ')` on the typing display names. -/
def joinAnd : List (List Char) → List Char
  | [] => []
  | [x] => x
  | x :: y :: t => x ++ sepAnd ++ joinAnd (y :: t)

/-- The `TypingIndicator` text: `none` models the empty placeholder
rendered for zero typists; otherwise the literal text of the source. -/
def typingIndicatorText (typingUsers : List (List Char)) : Option (List Char) :=
  if typingUsers.length = 0 then none
  else some
    (if typingUsers.length > 2 then
      natToDigits typingUsers.length ++ " people are typing...".data
    else
      joinAnd typingUsers ++
        (if typingUsers.length > 1 then " are".data else " is".data) ++
        " typing...".data)

/-! ## Inbox (`ChatListPage` realtime INSERT effect) -/

/-- The slice of a profile row the inbox needs. -/
structure Profile where
  id : List Char
  name : List Char
deriving DecidableEq, Repr

/-- One inbox entry: the peer's profile and the most recent message. -/
structure Conversation where
  profile : Profile
  last_message : Message
deriving DecidableEq, Repr

/-- The peer of a message from the current user's point of view. -/
def otherUser (userId : List Char) (m : Message) : List Char :=
  if m.sender_id = userId then m.receiver_id else m.sender_id

/-- The `ChatListPage` INSERT handler: an existing entry for the peer gets
its `last_message` replaced and moves to the head, the remaining entries
keeping their order; otherwise the peer's profile is fetched and a new
entry is inserted at the head (no change if the fetch fails).  No full
refetch is performed: the result is computed from the current list, the
event payload, and at most one profile row. -/
def inboxInsertHandler (userId : List Char) (convos : List Conversation)
    (m : Message) (profileFetch : Option Profile) : List Conversation :=
  match convos.find? (fun c => c.profile.id == otherUser userId m) with
  | some c =>
    ⟨c.profile, m⟩ :: convos.filter (fun c => c.profile.id != otherUser userId m)
  | none =>
    match profileFetch with
    | some pr => ⟨pr, m⟩ :: convos
    | none => convos

/-! ## Lemmas: decimal digits -/

/-- A run of digits is never empty for valid fuel: helper equation. -/
theorem natToDigitsAux_zero (fuel : Nat) : natToDigitsAux fuel 0 = [] := by
  cases fuel <;> rfl

theorem natToDigitsAux_stable :
    ∀ n f₁ f₂, n ≤ f₁ → n ≤ f₂ → natToDigitsAux f₁ n = natToDigitsAux f₂ n := by
  intro n
  induction n using Nat.strong_induction_on with
  | _ n ih =>
    intro f₁ f₂ h₁ h₂
    match n, f₁, f₂ with
    | 0, f₁, f₂ => rw [natToDigitsAux_zero, natToDigitsAux_zero]
    | m + 1, g₁ + 1, g₂ + 1 =>
      show natToDigitsAux g₁ ((m + 1) / 10) ++ _ =
        natToDigitsAux g₂ ((m + 1) / 10) ++ _
      have hlt : (m + 1) / 10 < m + 1 := Nat.div_lt_self (Nat.succ_pos m) (by omega)
      rw [ih _ hlt g₁ g₂ (by omega) (by omega)]

theorem natToDigits_step (n : Nat) (h : 10 ≤ n) :
    natToDigits n = natToDigits (n / 10) ++ [digitChar (n % 10)] := by
  obtain ⟨m, rfl⟩ : ∃ m, n = m + 1 := ⟨n - 1, by omega⟩
  have hd : (m + 1) / 10 ≠ 0 := by
    intro hz
    rw [Nat.div_eq_zero_iff (by omega)] at hz
    omega
  have hfuel : (m + 1) / 10 ≤ m := by
    have := Nat.div_lt_self (Nat.succ_pos m) (show 1 < 10 by omega)
    omega
  show natToDigitsAux (m + 1) (m + 1) = _
  show natToDigitsAux m ((m + 1) / 10) ++ [digitChar ((m + 1) % 10)] = _
  rw [natToDigitsAux_stable _ m ((m + 1) / 10) hfuel (Nat.le_refl _)]
  rw [natToDigits, if_neg hd]

theorem natToDigits_small (n : Nat) (h1 : 1 ≤ n) (h2 : n < 10) :
    natToDigits n = [digitChar n] := by
  obtain ⟨m, rfl⟩ : ∃ m, n = m + 1 := ⟨n - 1, by omega⟩
  show natToDigitsAux (m + 1) (m + 1) = _
  show natToDigitsAux m ((m + 1) / 10) ++ [digitChar ((m + 1) % 10)] = _
  rw [Nat.div_eq_of_lt h2, Nat.mod_eq_of_lt h2, natToDigitsAux_zero]
  rfl

theorem digitVal_digitChar : ∀ k, k < 10 → digitVal (digitChar k) = k := by decide

theorem isDig_digitChar : ∀ k, k < 10 → isDig (digitChar k) = true := by decide

theorem digitChar_ne_zero : ∀ k, k < 10 → 0 < k → digitChar k ≠ '0' := by decide

theorem digit_cases (c : Char) (h : isDig c = true) :
    c = '0' ∨ c = '1' ∨ c = '2' ∨ c = '3' ∨ c = '4' ∨ c = '5' ∨ c = '6' ∨
    c = '7' ∨ c = '8' ∨ c = '9' := by
  by_contra hc
  push_neg at hc
  obtain ⟨h0, h1, h2, h3, h4, h5, h6, h7, h8, h9⟩ := hc
  simp only [isDig, digitVal, if_neg h0, if_neg h1, if_neg h2, if_neg h3,
    if_neg h4, if_neg h5, if_neg h6, if_neg h7, if_neg h8, if_neg h9] at h
  simp at h

theorem digitChar_digitVal (c : Char) (h : isDig c = true) :
    digitChar (digitVal c) = c := by
  rcases digit_cases c h with rfl | rfl | rfl | rfl | rfl | rfl | rfl | rfl | rfl | rfl <;> rfl

theorem digitVal_lt_ten (c : Char) (h : isDig c = true) : digitVal c < 10 := by
  simpa [isDig] using h

theorem digitVal_ne_zero (c : Char) (h : isDig c = true) (h0 : c ≠ '0') :
    digitVal c ≠ 0 := by
  rcases digit_cases c h with rfl | rfl | rfl | rfl | rfl | rfl | rfl | rfl | rfl | rfl
  · exact absurd rfl h0
  all_goals decide

/-- The head digit of a canonical rendering: it exists, is a digit, and is
nonzero for a nonzero number. -/
theorem natToDigits_head (n : Nat) (hn : n ≠ 0) :
    ∃ c t, natToDigits n = c :: t ∧ isDig c = true ∧ c ≠ '0' := by
  induction n using Nat.strong_induction_on with
  | _ n ih =>
    rcases Nat.lt_or_ge n 10 with hlt | hge
    · refine ⟨digitChar n, [], natToDigits_small n (by omega) hlt, ?_, ?_⟩
      · exact isDig_digitChar n hlt
      · exact digitChar_ne_zero n hlt (by omega)
    · have hq : n / 10 ≠ 0 := by
        intro hz
        rw [Nat.div_eq_zero_iff (by omega)] at hz
        omega
      obtain ⟨c, t, hct, hdig, hzero⟩ :=
        ih (n / 10) (Nat.div_lt_self (by omega) (by omega)) hq
      exact ⟨c, t ++ [digitChar (n % 10)], by rw [natToDigits_step n hge, hct]; rfl,
        hdig, hzero⟩

theorem natToDigits_ne_nil (n : Nat) : natToDigits n ≠ [] := by
  rcases Nat.eq_zero_or_pos n with rfl | hpos
  · decide
  · obtain ⟨c, t, hct, -, -⟩ := natToDigits_head n (by omega)
    simp [hct]

theorem natToDigits_all_digits (n : Nat) :
    ∀ c ∈ natToDigits n, isDig c = true := by
  induction n using Nat.strong_induction_on with
  | _ n ih =>
    rcases Nat.eq_zero_or_pos n with rfl | hpos
    · decide
    · rcases Nat.lt_or_ge n 10 with hlt | hge
      · rw [natToDigits_small n hpos hlt]
        intro c hc
        rw [List.mem_singleton] at hc
        subst hc
        exact isDig_digitChar n hlt
      · rw [natToDigits_step n hge]
        intro c hc
        rcases List.mem_append.mp hc with h | h
        · exact ih (n / 10) (Nat.div_lt_self (by omega) (by omega)) c h
        · rw [List.mem_singleton] at h
          subst h
          exact isDig_digitChar _ (Nat.mod_lt _ (by omega))

theorem valBE_snoc (xs : List Char) (c : Char) :
    valBE (xs ++ [c]) = valBE xs * 10 + digitVal c := by
  simp [valBE, List.foldl_append]

theorem valBE_natToDigits (n : Nat) : valBE (natToDigits n) = n := by
  induction n using Nat.strong_induction_on with
  | _ n ih =>
    rcases Nat.eq_zero_or_pos n with rfl | hpos
    · decide
    · rcases Nat.lt_or_ge n 10 with hlt | hge
      · rw [natToDigits_small n hpos hlt]
        show valBE ([] ++ [digitChar n]) = n
        rw [valBE_snoc]
        simp [valBE, digitVal_digitChar n hlt]
      · rw [natToDigits_step n hge, valBE_snoc,
          ih (n / 10) (Nat.div_lt_self (by omega) (by omega)),
          digitVal_digitChar _ (Nat.mod_lt _ (by omega))]
        omega

theorem valBE_foldl_le (t : List Char) :
    ∀ acc, acc ≤ t.foldl (fun a c => a * 10 + digitVal c) acc := by
  induction t with
  | nil => intro acc; exact Nat.le_refl _
  | cons c t ih =>
    intro acc
    calc acc ≤ acc * 10 + digitVal c := by omega
    _ ≤ _ := ih _

theorem valBE_pos (c : Char) (t : List Char) (hd : isDig c = true) (h0 : c ≠ '0') :
    1 ≤ valBE (c :: t) := by
  have h1 : 1 ≤ digitVal c := Nat.one_le_iff_ne_zero.mpr (digitVal_ne_zero c hd h0)
  have : digitVal c ≤ valBE (c :: t) := by
    show digitVal c ≤ List.foldl _ (0 * 10 + digitVal c) t
    simpa using valBE_foldl_le t (digitVal c)
  omega

/-- A nonempty digit string without a leading zero (or the single digit
"0") is the canonical rendering of its value. -/
theorem natToDigits_valBE :
    ∀ ds : List Char, ds ≠ [] → (∀ c ∈ ds, isDig c = true) →
      (∀ x t, ds = x :: t → x = '0' → t = []) →
      natToDigits (valBE ds) = ds := by
  intro ds
  induction ds using List.reverseRecOn with
  | nil => intro h; exact absurd rfl h
  | append_singleton xs c ih =>
    intro _ hdig hlead
    match xs, hlead with
    | [], _ =>
      have hc : isDig c = true := hdig c (by simp)
      by_cases h0 : c = '0'
      · subst h0; decide
      · show natToDigits (valBE ([] ++ [c])) = _
        rw [valBE_snoc]
        have h1 : 1 ≤ digitVal c := Nat.one_le_iff_ne_zero.mpr (digitVal_ne_zero c hc h0)
        have h2 : digitVal c < 10 := digitVal_lt_ten c hc
        simp only [valBE, List.foldl_nil, Nat.zero_mul, Nat.zero_add]
        rw [natToDigits_small _ h1 h2, digitChar_digitVal c hc]
        rfl
    | x :: t, hlead =>
      have hx0 : x ≠ '0' := by
        intro hx
        have := hlead x (t ++ [c]) rfl hx
        simp at this
      have hxd : isDig x = true := hdig x (by simp)
      have hcd : isDig c = true := hdig c (by simp)
      have hv : 1 ≤ valBE (x :: t) := valBE_pos x t hxd hx0
      rw [valBE_snoc]
      have hc10 : digitVal c < 10 := digitVal_lt_ten c hcd
      have hge : 10 ≤ valBE (x :: t) * 10 + digitVal c := by omega
      rw [natToDigits_step _ hge]
      have hdivq : (valBE (x :: t) * 10 + digitVal c) / 10 = valBE (x :: t) := by
        omega
      have hmodq : (valBE (x :: t) * 10 + digitVal c) % 10 = digitVal c := by
        omega
      rw [hdivq, hmodq, digitChar_digitVal c hcd]
      rw [ih (by simp) (fun d hd => hdig d (by
          simp only [List.cons_append, List.mem_cons, List.mem_append] at hd ⊢; tauto))
        (fun y u hy hy0 => absurd hy0 (by injection hy with h1 h2; exact h1 ▸ hx0))]

/-- Whether the input does not start with a digit (maximal-munch boundary). -/
def headNotDig : List Char → Bool
  | [] => true
  | c :: _ => !isDig c

theorem goDigits_spec :
    ∀ (ds rest : List Char) (acc : Nat), (∀ c ∈ ds, isDig c = true) →
      headNotDig rest = true →
      goDigits (ds ++ rest) acc =
        (ds.foldl (fun a c => a * 10 + digitVal c) acc, rest) := by
  intro ds
  induction ds with
  | nil =>
    intro rest acc _ hrest
    match rest with
    | [] => rfl
    | c :: t =>
      have hc : isDig c = false := by
        simpa [headNotDig] using hrest
      simp [goDigits, hc]
  | cons c ds ih =>
    intro rest acc hdig hrest
    have hc : isDig c = true := hdig c (by simp)
    rw [List.cons_append,
      show goDigits (c :: (ds ++ rest)) acc =
        goDigits (ds ++ rest) (acc * 10 + digitVal c) by simp [goDigits, hc],
      ih rest _ (fun d hd => hdig d (by simp [hd])) hrest]
    rfl

theorem goDigits_sound :
    ∀ (t : List Char) (acc n : Nat) (rest : List Char),
      goDigits t acc = (n, rest) →
      ∃ ds, t = ds ++ rest ∧ (∀ c ∈ ds, isDig c = true) ∧
        headNotDig rest = true ∧
        n = ds.foldl (fun a c => a * 10 + digitVal c) acc := by
  intro t
  induction t with
  | nil =>
    intro acc n rest h
    obtain ⟨rfl, rfl⟩ : acc = n ∧ ([] : List Char) = rest := by
      simpa [goDigits] using h
    exact ⟨[], rfl, by simp, rfl, rfl⟩
  | cons c t ih =>
    intro acc n rest h
    by_cases hc : isDig c = true
    · rw [show goDigits (c :: t) acc = goDigits t (acc * 10 + digitVal c) by
        simp [goDigits, hc]] at h
      obtain ⟨ds, rfl, hdig, hrest, hval⟩ := ih _ n rest h
      exact ⟨c :: ds, rfl, by
        intro d hd
        rcases List.mem_cons.mp hd with rfl | hd
        · exact hc
        · exact hdig d hd, hrest, hval⟩
    · have hc' : isDig c = false := by simpa using hc
      obtain ⟨rfl, rfl⟩ : acc = n ∧ c :: t = rest := by
        simpa [goDigits, hc'] using h
      exact ⟨[], rfl, by simp, by simp [headNotDig, hc'], rfl⟩

theorem parseDigits_append (n : Nat) (rest : List Char)
    (hrest : headNotDig rest = true) :
    parseDigits (natToDigits n ++ rest) = some (n, rest) := by
  rcases Nat.eq_zero_or_pos n with rfl | hpos
  · show parseDigits ('0' :: rest) = _
    simp [parseDigits]
  · obtain ⟨c, t, hct, hdig, hzero⟩ := natToDigits_head n (by omega)
    rw [hct]
    show parseDigits (c :: (t ++ rest)) = _
    have hall : ∀ d ∈ t, isDig d = true := by
      intro d hd
      exact natToDigits_all_digits n d (by rw [hct]; simp [hd])
    rw [parseDigits, if_neg hzero, if_pos hdig, goDigits_spec t rest _ hall hrest]
    have hv : (t.foldl (fun a c => a * 10 + digitVal c) (digitVal c)) = valBE (c :: t) := by
      simp [valBE, List.foldl_cons]
    rw [hv, ← hct, valBE_natToDigits]

theorem parseDigits_sound (s : List Char) (n : Nat) (rest : List Char)
    (h : parseDigits s = some (n, rest)) : s = natToDigits n ++ rest := by
  match s with
  | [] => exact absurd h (by simp [parseDigits])
  | c :: t =>
    by_cases h0 : c = '0'
    · subst h0
      obtain ⟨rfl, rfl⟩ : 0 = n ∧ t = rest := by
        simpa [parseDigits] using h
      rfl
    · by_cases hd : isDig c = true
      · rw [parseDigits, if_neg h0, if_pos hd] at h
        have hg : goDigits t (digitVal c) = (n, rest) := Option.some.inj h
        obtain ⟨ds, rfl, hdig, -, hval⟩ := goDigits_sound t _ n rest hg
        have hfold : n = valBE (c :: ds) := by
          simpa [valBE, List.foldl_cons] using hval
        have hcan : natToDigits (valBE (c :: ds)) = c :: ds :=
          natToDigits_valBE (c :: ds) (by simp)
            (by
              intro d hd'
              rcases List.mem_cons.mp hd' with rfl | hd'
              · exact hd
              · exact hdig d hd')
            (fun y u hy hy0 => absurd hy0 (by injection hy with h1 h2; exact h1 ▸ h0))
        rw [hfold, hcan]
        rfl
      · rw [parseDigits, if_neg h0, if_neg hd] at h
        exact absurd h (by simp)

/-! ## Lemmas: JSON strings -/

theorem parseJsonString_escape (s rest : List Char) :
    parseJsonString (escapeJson s ++ '"' :: rest) = some (s, rest) := by
  induction s with
  | nil =>
    show parseJsonString ('"' :: rest) = _
    rw [parseJsonString.eq_def]
    simp
  | cons c s ih =>
    by_cases hc : c = '"' ∨ c = '\\'
    · rw [escapeJson, if_pos hc]
      show parseJsonString ('\\' :: c :: (escapeJson s ++ '"' :: rest)) = _
      rw [parseJsonString.eq_def]
      simp only []
      rcases hc with rfl | rfl
      · rw [if_neg (by decide : ¬ ('\\' : Char) = '"'),
          if_neg (by decide : ¬ ('"' : Char) = 'u'),
          show escChar '"' = some '"' from rfl]
        simp only []
        rw [ih]
        rfl
      · rw [if_neg (by decide : ¬ ('\\' : Char) = '"'),
          if_neg (by decide : ¬ ('\\' : Char) = 'u'),
          show escChar '\\' = some '\\' from rfl]
        simp only []
        rw [ih]
        rfl
    · push_neg at hc
      rw [escapeJson, if_neg (by tauto)]
      show parseJsonString (c :: (escapeJson s ++ '"' :: rest)) = _
      rw [parseJsonString.eq_def]
      simp only []
      rw [if_neg hc.1, if_neg hc.2, ih]
      rfl

/-! ## Lemmas: literals and the whole JSON payload -/

theorem isPre_append : ∀ (p t : List Char), isPre p (p ++ t) = true := by
  intro p
  induction p with
  | nil => intro t; rfl
  | cons a p ih =>
    intro t
    show (a = a && isPre p (p ++ t)) = true
    simp [ih]

theorem isPre_exists : ∀ (p s : List Char), isPre p s = true → ∃ t, s = p ++ t := by
  intro p
  induction p with
  | nil => intro s _; exact ⟨s, rfl⟩
  | cons a p ih =>
    intro s h
    match s with
    | [] => exact absurd h (by simp [isPre])
    | b :: s' =>
      have hab : a = b ∧ isPre p s' = true := by
        simpa [isPre] using h
      obtain ⟨t, rfl⟩ := ih s' hab.2
      exact ⟨t, by rw [hab.1]; rfl⟩

theorem expectLit_append (lit rest : List Char) :
    expectLit lit (lit ++ rest) = some rest := by
  rw [expectLit, if_pos (isPre_append lit rest)]
  congr 1
  exact List.drop_left lit rest

theorem expectLit_sound (lit s r : List Char) (h : expectLit lit s = some r) :
    s = lit ++ r := by
  rw [expectLit] at h
  by_cases hp : isPre lit s = true
  · rw [if_pos hp] at h
    obtain ⟨t, rfl⟩ := isPre_exists lit s hp
    have : List.drop lit.length (lit ++ t) = r := Option.some.inj h
    rw [List.drop_left] at this
    rw [this]
  · rw [if_neg hp] at h
    exact absurd h (by simp)

theorem jsonParse_stringify (r : ReplyInfo) :
    jsonParse (jsonStringify r) = some r := by
  unfold jsonStringify jsonParse
  simp only [List.append_assoc, List.cons_append]
  rw [expectLit_append]
  simp only []
  rw [parseDigits_append _ _ (by rfl)]
  simp only []
  rw [expectLit_append]
  simp only []
  rw [parseJsonString_escape]
  simp only []
  rw [expectLit_append]
  simp only []
  rw [parseJsonString_escape]
  simp only []
  rw [expectLit_append]
  simp only []
  rw [parseJsonString_escape]
  simp only []
  rw [show expectLit litClose litClose = some [] from by decide]
  rfl

/-! ## Lemmas: the delimiter split -/

theorem containsSeg_of_isPre (p u : List Char) (hu : u ≠ [])
    (h : isPre p u = true) : containsSeg p u = true := by
  match u with
  | [] => exact absurd rfl hu
  | c :: t =>
    show (isPre p (c :: t) || containsSeg p t) = true
    simp [h]

theorem containsSeg_cons (p : List Char) (c : Char) (t : List Char)
    (h : containsSeg p t = true) : containsSeg p (c :: t) = true := by
  show (isPre p (c :: t) || containsSeg p t) = true
  simp [h]

theorem isPre_append_of_le :
    ∀ (p x y : List Char), p.length ≤ x.length →
      isPre p (x ++ y) = isPre p x := by
  intro p
  induction p with
  | nil => intro x y _; rfl
  | cons a p ih =>
    intro x y hlen
    match x with
    | [] => simp at hlen
    | c :: x' =>
      show (a = c && isPre p (x' ++ y)) = (a = c && isPre p x')
      rw [ih x' y (by simpa using hlen)]

/-- No occurrence of the closing delimiter can straddle the boundary
between the JSON part and the delimiter that follows it. -/
theorem noStraddle (u b : List Char) (hu : u ≠ [])
    (hseg : containsSeg replySuf u = false) :
    isPre replySuf (u ++ (replySuf ++ b)) = false := by
  by_contra hcontra
  have hp : isPre replySuf (u ++ (replySuf ++ b)) = true := by
    simpa using hcontra
  have hL : replySuf.length = 8 := rfl
  rcases Nat.lt_or_ge u.length 8 with hlt | hle
  · have hpos : 0 < u.length := List.length_pos.mpr hu
    -- the delimiter would have to start inside a too-short, self-overlapping copy
    have hp' : isPre replySuf (u ++ replySuf) = true := by
      have hlen : replySuf.length ≤ (u ++ replySuf).length := by
        rw [List.length_append]; omega
      rw [← isPre_append_of_le replySuf (u ++ replySuf) b hlen, List.append_assoc]
      exact hp
    obtain ⟨t, he⟩ := isPre_exists _ _ hp'
    have h1 : List.take u.length (u ++ replySuf) = u := by
      rw [List.take_append_eq_append_take, List.take_length, Nat.sub_self,
        List.take_zero, List.append_nil]
    have h2 : List.take u.length (replySuf ++ t) = List.take u.length replySuf := by
      rw [List.take_append_eq_append_take,
        show u.length - replySuf.length = 0 by omega, List.take_zero, List.append_nil]
    have hu_eq : u = List.take u.length replySuf := by
      conv_lhs => rw [← h1, he]
      exact h2
    have hcases : u.length = 1 ∨ u.length = 2 ∨ u.length = 3 ∨ u.length = 4 ∨
        u.length = 5 ∨ u.length = 6 ∨ u.length = 7 := by omega
    rcases hcases with h | h | h | h | h | h | h <;>
      (simp only [h] at hu_eq; subst hu_eq; exact absurd hp' (by decide))
  · have hp'' : isPre replySuf u = true := by
      rw [← isPre_append_of_le replySuf u (replySuf ++ b) (by omega)]
      exact hp
    rw [containsSeg_of_isPre _ _ hu hp''] at hseg
    exact absurd hseg (by simp)

theorem splitOnFirst_complete (jp b : List Char)
    (hseg : containsSeg replySuf jp = false) :
    splitOnFirst replySuf (jp ++ (replySuf ++ b)) = some (jp, b) := by
  induction jp with
  | nil =>
    show splitOnFirst replySuf (replySuf ++ b) = _
    match hsb : replySuf ++ b with
    | [] => exact absurd hsb (by simp [replySuf])
    | c :: t =>
      rw [splitOnFirst, if_pos (by rw [← hsb]; exact isPre_append _ _)]
      rw [← hsb, List.drop_left]
  | cons c jp ih =>
    have hne : isPre replySuf (c :: (jp ++ (replySuf ++ b))) = false := by
      have := noStraddle (c :: jp) b (by simp) hseg
      simpa using this
    have hseg' : containsSeg replySuf jp = false := by
      by_contra hx
      have hx' : containsSeg replySuf jp = true := by simpa using hx
      rw [containsSeg_cons _ c _ hx'] at hseg
      exact absurd hseg (by simp)
    rw [List.cons_append, splitOnFirst, if_neg (by simp [hne]), ih hseg']

theorem splitOnFirst_sound (pat : List Char) (hpat : pat ≠ []) :
    ∀ (s a b : List Char), splitOnFirst pat s = some (a, b) →
      s = a ++ (pat ++ b) ∧ containsSeg pat a = false := by
  intro s
  induction s with
  | nil =>
    intro a b h
    exact absurd h (by simp [splitOnFirst])
  | cons c t ih =>
    intro a b h
    by_cases hp : isPre pat (c :: t) = true
    · rw [splitOnFirst, if_pos hp] at h
      obtain ⟨rfl, hb⟩ : ([] : List Char) = a ∧ (c :: t).drop pat.length = b := by
        simpa using h
      obtain ⟨u, hu⟩ := isPre_exists _ _ hp
      rw [hu, List.drop_left] at hb
      subst hb
      refine ⟨by rw [List.nil_append]; exact hu, ?_⟩
      show pat.isEmpty = false
      simpa [List.isEmpty_iff] using hpat
    · rw [splitOnFirst, if_neg hp] at h
      match hs : splitOnFirst pat t with
      | none => rw [hs] at h; exact absurd h (by simp)
      | some (a', b') =>
        rw [hs] at h
        obtain ⟨rfl, rfl⟩ : c :: a' = a ∧ b' = b := by simpa using h
        obtain ⟨hsplit, hseg⟩ := ih a' b' hs
        refine ⟨by rw [hsplit]; simp, ?_⟩
        show (isPre pat (c :: a') || containsSeg pat a') = false
        have h1 : isPre pat (c :: a') = false := by
          by_contra hx
          have hx' : isPre pat (c :: a') = true := by simpa using hx
          obtain ⟨v, hv⟩ := isPre_exists _ _ hx'
          have hct : c :: t = pat ++ (v ++ (pat ++ b')) := by
            conv_rhs => rw [← List.append_assoc, ← hv]
            rw [hsplit, List.cons_append]
          have : isPre pat (c :: t) = true := by
            rw [hct]; exact isPre_append _ _
          exact hp this
        rw [h1, hseg]
        rfl

/-! ## Lemmas: the reply codec -/

theorem formatReplyContent_ne_nil (r : ReplyInfo) (b : List Char) :
    formatReplyContent r b ≠ [] := by
  unfold formatReplyContent
  simp [replyPre]

theorem replyMatch_format (r : ReplyInfo) (body : List Char)
    (hseg : containsSeg replySuf (jsonStringify r) = false) :
    replyMatch (formatReplyContent r body) = some (jsonStringify r, body) := by
  unfold formatReplyContent replyMatch
  simp only [List.append_assoc]
  rw [if_pos (isPre_append _ _), List.drop_left]
  exact splitOnFirst_complete _ _ hseg

theorem parseReply_format (r : ReplyInfo) (body : List Char)
    (hseg : containsSeg replySuf (jsonStringify r) = false) :
    parseReply (some (formatReplyContent r body)) = (some r, body) := by
  unfold parseReply
  simp only []
  rw [if_neg (formatReplyContent_ne_nil r body), replyMatch_format r body hseg]
  simp only []
  rw [jsonParse_stringify]

theorem replyMatch_sound (s jp mc : List Char)
    (h : replyMatch s = some (jp, mc)) :
    s = replyPre ++ (jp ++ (replySuf ++ mc)) ∧ containsSeg replySuf jp = false := by
  unfold replyMatch at h
  by_cases hp : isPre replyPre s = true
  · rw [if_pos hp] at h
    obtain ⟨u, hu⟩ := isPre_exists _ _ hp
    rw [hu, List.drop_left] at h
    obtain ⟨hsplit, hseg⟩ := splitOnFirst_sound replySuf (by simp [replySuf]) u jp mc h
    exact ⟨by rw [hu, hsplit], hseg⟩
  · rw [if_neg hp] at h
    exact absurd h (by simp)

theorem parseReply_fallback (s : List Char)
    (h : replyMatch s = none ∨
      ∃ jp mc, replyMatch s = some (jp, mc) ∧ jsonParse jp = none) :
    parseReply (some s) = (none, s) := by
  unfold parseReply
  simp only []
  by_cases hnil : s = []
  · subst hnil
    rfl
  · rw [if_neg hnil]
    rcases h with h | ⟨jp, mc, hm, hj⟩
    · rw [h]
    · rw [hm]
      simp only []
      rw [hj]

/-! ## Lemmas: the visible-list handlers -/

theorem insertHandler_nodup (msgs : List Message) (m : Message)
    (h : (msgs.map Message.id).Nodup) :
    ((insertHandler msgs m).map Message.id).Nodup := by
  unfold insertHandler
  by_cases hany : msgs.any (fun x => x.id == m.id) = true
  · rw [if_pos hany]
    exact h
  · rw [if_neg hany]
    have hnot : ∀ x ∈ msgs, x.id ≠ m.id := by
      simpa using hany
    rw [List.map_append]
    rw [List.nodup_append]
    refine ⟨h, List.nodup_singleton _, ?_⟩
    intro a ha
    simp only [List.map_cons, List.map_nil, List.mem_singleton]
    intro hb
    subst hb
    obtain ⟨x, hx, hxa⟩ := List.mem_map.mp ha
    exact hnot x hx hxa

theorem insertHandler_dedup (msgs : List Message) (m x : Message)
    (hx : x ∈ msgs) (hid : x.id = m.id) : insertHandler msgs m = msgs := by
  unfold insertHandler
  rw [if_pos (List.any_eq_true.mpr ⟨x, hx, by simp [hid]⟩)]

theorem sorted_append (msgs : List Message) (m : Message)
    (h : SortedByKey msgs) (hall : ∀ x ∈ msgs, keyLe x m) :
    SortedByKey (msgs ++ [m]) := by
  unfold SortedByKey at h ⊢
  rw [List.pairwise_append]
  refine ⟨h, List.pairwise_singleton _ _, ?_⟩
  intro a ha b hb
  rw [List.mem_singleton] at hb
  subst hb
  exact hall a ha

theorem insertHandler_sorted (msgs : List Message) (m : Message)
    (h : SortedByKey msgs) (hall : ∀ x ∈ msgs, keyLe x m) :
    SortedByKey (insertHandler msgs m) := by
  unfold insertHandler
  by_cases hany : msgs.any (fun x => x.id == m.id) = true
  · rw [if_pos hany]; exact h
  · rw [if_neg hany]; exact sorted_append msgs m h hall

theorem deleteHandler_sorted (msgs : List Message) (i : Nat)
    (h : SortedByKey msgs) : SortedByKey (deleteHandler msgs i) :=
  List.Pairwise.sublist (List.filter_sublist msgs) h

theorem updateHandler_sorted (msgs : List Message) (m : Message)
    (h : SortedByKey msgs)
    (hts : ∀ x ∈ msgs, x.id = m.id → x.created_at = m.created_at) :
    SortedByKey (updateHandler msgs m) := by
  unfold updateHandler SortedByKey
  rw [List.pairwise_map]
  have hkey : ∀ x ∈ msgs,
      (if x.id == m.id then m else x).created_at = x.created_at ∧
      (if x.id == m.id then m else x).id = x.id := by
    intro x hx
    by_cases hb : (x.id == m.id) = true
    · have hxid : x.id = m.id := by simpa using hb
      rw [if_pos hb]
      exact ⟨(hts x hx hxid).symm, hxid.symm⟩
    · rw [if_neg hb]
      exact ⟨rfl, rfl⟩
  refine List.Pairwise.imp_of_mem ?_ h
  intro a b ha hb hab
  obtain ⟨hca, hia⟩ := hkey a ha
  obtain ⟨hcb, hib⟩ := hkey b hb
  unfold keyLe at hab ⊢
  rw [hca, hia, hcb, hib]
  exact hab

theorem markRow_idem (v p : List Char) (m : Message) :
    markRow v p (markRow v p m) = markRow v p m := by
  unfold markRow
  by_cases hc : m.receiver_id = v ∧ m.sender_id = p ∧ m.is_seen = false
  · rw [if_pos hc]
    rw [if_neg (by simp)]
  · rw [if_neg hc, if_neg hc]

theorem markRow_id_preserved (v p : List Char) (m : Message) :
    (markRow v p m).id = m.id := by
  unfold markRow
  by_cases hc : m.receiver_id = v ∧ m.sender_id = p ∧ m.is_seen = false
  · rw [if_pos hc]
  · rw [if_neg hc]

theorem markRow_monotone (v p : List Char) (m : Message)
    (h : m.is_seen = true) : (markRow v p m).is_seen = true := by
  unfold markRow
  by_cases hc : m.receiver_id = v ∧ m.sender_id = p ∧ m.is_seen = false
  · rw [if_pos hc]
  · rw [if_neg hc]; exact h

theorem markRow_complete (v p : List Char) (m : Message)
    (hr : (markRow v p m).receiver_id = v) (hs : (markRow v p m).sender_id = p) :
    (markRow v p m).is_seen = true := by
  by_cases hc : m.receiver_id = v ∧ m.sender_id = p ∧ m.is_seen = false
  · unfold markRow
    rw [if_pos hc]
  · unfold markRow at hr hs ⊢
    rw [if_neg hc] at hr hs ⊢
    rcases Bool.eq_false_or_eq_true m.is_seen with hb | hb
    · exact hb
    · exact absurd ⟨hr, hs, hb⟩ hc

theorem markMessagesAsSeen_hidden (v p : List Char) (tbl : List Message) :
    markMessagesAsSeen true v p tbl = tbl := rfl

theorem markMessagesAsSeen_idem (v p : List Char) (tbl : List Message) :
    markMessagesAsSeen false v p (markMessagesAsSeen false v p tbl) =
      markMessagesAsSeen false v p tbl := by
  show (tbl.map (markRow v p)).map (markRow v p) = tbl.map (markRow v p)
  rw [List.map_map]
  exact List.map_congr_left (fun m _ => markRow_idem v p m)

theorem markMessagesAsSeen_complete (v p : List Char) (tbl : List Message) :
    ∀ m ∈ markMessagesAsSeen false v p tbl,
      m.receiver_id = v → m.sender_id = p → m.is_seen = true := by
  intro m hm hr hs
  obtain ⟨x, hx, rfl⟩ := List.mem_map.mp hm
  exact markRow_complete v p x hr hs

theorem markMessagesAsSeen_monotone (v p : List Char) (tbl : List Message) :
    List.Forall₂ (fun a b => a.id = b.id ∧ (a.is_seen = true → b.is_seen = true))
      tbl (markMessagesAsSeen false v p tbl) := by
  show List.Forall₂ _ tbl (tbl.map (markRow v p))
  induction tbl with
  | nil => exact List.Forall₂.nil
  | cons x t ih =>
    exact List.Forall₂.cons
      ⟨(markRow_id_preserved v p x).symm, markRow_monotone v p x⟩ ih

/-! ## Lemmas: the inbox insert handler -/

theorem inboxInsertHandler_found (userId : List Char) (convos : List Conversation)
    (m : Message) (pf : Option Profile) (c0 : Conversation)
    (hf : convos.find? (fun c => c.profile.id == otherUser userId m) = some c0) :
    inboxInsertHandler userId convos m pf =
      ⟨c0.profile, m⟩ ::
        convos.filter (fun c => c.profile.id != otherUser userId m) := by
  unfold inboxInsertHandler
  rw [hf]

theorem inboxInsertHandler_new (userId : List Char) (convos : List Conversation)
    (m : Message) (pr : Profile)
    (hf : convos.find? (fun c => c.profile.id == otherUser userId m) = none) :
    inboxInsertHandler userId convos m (some pr) = ⟨pr, m⟩ :: convos := by
  unfold inboxInsertHandler
  rw [hf]

/-! ## Sample data for the concrete witnesses -/

/-- A message from alice to bob, id 5, not yet seen. -/
def msgA : Message := ⟨5, "alice".data, "bob".data, some "hi".data, 10, false⟩

/-- A message from bob to alice, id 6. -/
def msgB : Message := ⟨6, "bob".data, "alice".data, some "yo".data, 11, false⟩

/-- A message with the later timestamp. -/
def mLate : Message := ⟨1, "alice".data, "bob".data, some "late".data, 2, false⟩

/-- A message with the earlier timestamp but a distinct id. -/
def mEarly : Message := ⟨2, "bob".data, "alice".data, some "early".data, 1, false⟩

/-- An ordinary reply envelope. -/
def sampleReply : ReplyInfo :=
  ⟨100, "Lets meet at 5".data, "alice".data, "Alice".data⟩

/-- A reply envelope whose quoted snippet contains the closing delimiter
token itself. -/
def badReply : ReplyInfo := ⟨1, "::REPLY]".data, "a".data, "b".data⟩

/-- The encoded form of a reply to `sampleReply`. -/
def sampleEncoded : List Char :=
  formatReplyContent sampleReply "What time works?".data

/-- A stored content whose JSON payload spells the closing delimiter of
the reply codec with a unicode escape: the payload contains no literal
`::REPLY]`, yet JSON.parse decodes the u005d escape to the bracket, so
the content decodes to the envelope `badReply`. -/
def badEncoded : List Char :=
  "[REPLY::\x7b\"id\":1,\"content\":\"::REPLY\\u005d\",\"senderId\":\"a\",\"senderName\":\"b\"\x7d::REPLY]x".data

/-- Profile row for alice. -/
def profAlice : Profile := ⟨"alice".data, "Alice".data⟩

/-- Profile row for bob. -/
def profBob : Profile := ⟨"bob".data, "Bob".data⟩

/-- An inbox entry for the peer alice. -/
def convoAlice : Conversation := ⟨profAlice, msgA⟩

/-! ## Claims -/

/-- C1 (counterexample): the round trip fails as universally stated.  For
the envelope whose content field contains the closing delimiter token
`::REPLY]`, the lazy regex group stops at the first occurrence of the
token inside the serialized JSON, the truncated payload fails to parse,
and `parseReply` falls back to a null envelope with the whole encoded
string — not the original envelope and body. -/
theorem C1_counterexample :
    parseReply (some (formatReplyContent badReply "hi".data)) ≠
      (some badReply, "hi".data) := by decide

/-- C1 (amended): the reply codec round-trips for every envelope whose
JSON serialization does not contain the closing delimiter token
`::REPLY]` (in particular whenever no field of the envelope contains that
token), and every body string. -/
theorem C1_amended (r : ReplyInfo) (body : List Char)
    (h : containsSeg replySuf (jsonStringify r) = false) :
    parseReply (some (formatReplyContent r body)) = (some r, body) :=
  parseReply_format r body h

/-- C1 (witness): the amended round trip at a concrete envelope and body. -/
theorem C1_witness :
    containsSeg replySuf (jsonStringify sampleReply) = false ∧
    parseReply (some (formatReplyContent sampleReply "What time works?".data)) =
      (some sampleReply, "What time works?".data) :=
  ⟨by decide, C1_amended sampleReply _ (by decide)⟩

/-- C2 (counterexample): if the broadcast echo of a write is processed by
the realtime INSERT handler before the local append of the insert
acknowledgment, the same id appears twice in the visible list: the local
append performs no id check. -/
theorem C2_counterexample :
    ¬ ((localSendAppend (insertHandler [] msgA) msgA).map Message.id).Nodup := by
  decide

/-- C2 (amended): the realtime INSERT handler never introduces a
duplicate id (it preserves id-uniqueness of the visible list, and is a
no-op when the arriving id is already present, which collapses the echo
when the local append came first); the unchecked local append after the
insert acknowledgment is the only way a duplicate can arise. -/
theorem C2_amended :
    (∀ (msgs : List Message) (m : Message), (msgs.map Message.id).Nodup →
      ((insertHandler msgs m).map Message.id).Nodup) ∧
    (∀ (msgs : List Message) (m x : Message), x ∈ msgs → x.id = m.id →
      insertHandler msgs m = msgs) :=
  ⟨fun msgs m h => insertHandler_nodup msgs m h,
   fun msgs m x hx hid => insertHandler_dedup msgs m x hx hid⟩

/-- C2 (witness): the amended statement at concrete lists. -/
theorem C2_witness :
    ((insertHandler [msgA] msgB).map Message.id).Nodup ∧
    insertHandler [msgA] msgA = [msgA] :=
  ⟨C2_amended.1 [msgA] msgB (by decide),
   C2_amended.2 [msgA] msgA msgA (by decide) rfl⟩

/-- C3 (counterexample): a live INSERT event is appended at the tail
without re-sorting, so an event carrying an older `created_at` than the
tail breaks the ascending (createdAt, id) order. -/
theorem C3_counterexample : ¬ SortedByKey (insertHandler [mLate] mEarly) := by
  decide

/-- C3 (amended): the visible list stays sorted by (createdAt, id) under
the handlers only conditionally: an insert (or the local send append)
preserves order when the new message's key is at least every present key;
a delete always preserves order; an update preserves order when the
updated row keeps its timestamp (the id is unchanged by construction). -/
theorem C3_amended :
    (∀ (msgs : List Message) (m : Message), SortedByKey msgs →
      (∀ x ∈ msgs, keyLe x m) → SortedByKey (insertHandler msgs m)) ∧
    (∀ (msgs : List Message) (m : Message), SortedByKey msgs →
      (∀ x ∈ msgs, keyLe x m) → SortedByKey (localSendAppend msgs m)) ∧
    (∀ (msgs : List Message) (i : Nat), SortedByKey msgs →
      SortedByKey (deleteHandler msgs i)) ∧
    (∀ (msgs : List Message) (m : Message), SortedByKey msgs →
      (∀ x ∈ msgs, x.id = m.id → x.created_at = m.created_at) →
      SortedByKey (updateHandler msgs m)) :=
  ⟨fun msgs m h hall => insertHandler_sorted msgs m h hall,
   fun msgs m h hall => sorted_append msgs m h hall,
   fun msgs i h => deleteHandler_sorted msgs i h,
   fun msgs m h hts => updateHandler_sorted msgs m h hts⟩

/-- C3 (witness): the amended statement at concrete lists. -/
theorem C3_witness :
    SortedByKey (insertHandler [mEarly] mLate) ∧
    SortedByKey (localSendAppend [mEarly] mLate) ∧
    SortedByKey (deleteHandler [mEarly, mLate] 1) ∧
    SortedByKey (updateHandler [mEarly] mEarly) :=
  ⟨C3_amended.1 [mEarly] mLate (by decide) (by decide),
   C3_amended.2.1 [mEarly] mLate (by decide) (by decide),
   C3_amended.2.2.1 [mEarly, mLate] 1 (by decide),
   C3_amended.2.2.2 [mEarly] mEarly (by decide) (by decide)⟩

/-- C4 (counterexample): there is no optimistic entry at all.  After a
failed send from an empty conversation, the visible list is empty — no
pending entry was ever appended and nothing is marked failed; the draft
merely stays in the input field. -/
theorem C4_counterexample :
    handleSendMessage [] ("hi".data) SendResult.failure = ([], "hi".data) := rfl

/-- C4 (amended): the send is awaited rather than optimistic: on success
the server-acknowledged row is appended to the visible list and the input
is cleared; on failure the visible list is unchanged and the draft text
remains in the input field (an alert is shown); an empty draft is never
sent. -/
theorem C4_amended (msgs : List Message) (draft : List Char) (m : Message)
    (h : draft ≠ []) :
    handleSendMessage msgs draft (SendResult.ack m) = (msgs ++ [m], []) ∧
    handleSendMessage msgs draft SendResult.failure = (msgs, draft) := by
  unfold handleSendMessage
  rw [if_neg h, if_neg h]
  exact ⟨rfl, rfl⟩

/-- C4 (witness): the amended statement at a concrete draft. -/
theorem C4_witness :
    handleSendMessage [] ("hi".data) (SendResult.ack msgA) = ([msgA], []) ∧
    handleSendMessage [] ("hi".data) SendResult.failure = ([], "hi".data) :=
  C4_amended [] ("hi".data) msgA (by decide)

/-- C5: decode totality and fallback.  `parseReply` is a total function;
whenever the reply regex does not match (delimiters absent) or the
delimited payload fails to parse as JSON, it returns a null envelope
together with the original string unchanged. -/
theorem C5_prop (s : List Char)
    (h : replyMatch s = none ∨
      ∃ jp mc, replyMatch s = some (jp, mc) ∧ jsonParse jp = none) :
    parseReply (some s) = (none, s) :=
  parseReply_fallback s h

/-- C5 (witness): the fallback at a concrete corrupted string whose
delimited payload is not JSON. -/
theorem C5_witness :
    parseReply (some ("[REPLY::oops::REPLY]hi".data)) =
      (none, "[REPLY::oops::REPLY]hi".data) :=
  C5_prop _ (Or.inr ⟨"oops".data, "hi".data, by decide, by decide⟩)

/-- C6 (counterexample): editing does not always preserve the reply
envelope.  The stored content `badEncoded` decodes to the envelope
`badReply` (its quoted snippet is the delimiter token, written with a
JSON u-escape in the stored payload), but after `handleUpdateMessage`
re-encodes that envelope with a new body, the serialized payload carries
the delimiter literally, so decoding the updated content yields a null
envelope instead of the original one. -/
theorem C6_counterexample :
    (parseReply (some badEncoded)).1 = some badReply ∧
    (parseReply (some (handleUpdateMessage (some badEncoded) ("y".data)))).1 =
      none := by decide

/-- C6 (amended): editing preserves the reply envelope whenever the
JSON serialization of the decoded envelope does not contain the closing
delimiter token `::REPLY]` (in particular whenever no field of the
envelope contains that token): then the edit re-encodes the existing
envelope with the new body and decoding the updated content yields the
same envelope and only the new body. -/
theorem C6_amended (oldContent : Option (List Char)) (newBody : List Char)
    (r : ReplyInfo) (h : (parseReply oldContent).1 = some r)
    (hseg : containsSeg replySuf (jsonStringify r) = false) :
    parseReply (some (handleUpdateMessage oldContent newBody)) =
      (some r, newBody) := by
  unfold handleUpdateMessage
  rw [h]
  simp only []
  exact parseReply_format r newBody hseg

/-- C6 (witness): editing a concrete encoded reply to a new body keeps
the envelope and changes only the body. -/
theorem C6_witness :
    parseReply (some (handleUpdateMessage (some sampleEncoded)
        ("What time works for you?".data))) =
      (some sampleReply, "What time works for you?".data) :=
  C6_amended (some sampleEncoded) _ sampleReply (by decide) (by decide)

/-- C7: the batched mark-seen update is guarded by document visibility
(no-op when hidden), idempotent (repeating it changes no state), complete
(every row addressed to the viewer by the open peer is seen afterwards),
and monotone (ids are preserved positionally and a seen flag is never
reset to unseen). -/
theorem C7_prop (v p : List Char) (tbl : List Message) :
    markMessagesAsSeen true v p tbl = tbl ∧
    markMessagesAsSeen false v p (markMessagesAsSeen false v p tbl) =
      markMessagesAsSeen false v p tbl ∧
    (∀ m ∈ markMessagesAsSeen false v p tbl,
      m.receiver_id = v → m.sender_id = p → m.is_seen = true) ∧
    List.Forall₂ (fun a b => a.id = b.id ∧ (a.is_seen = true → b.is_seen = true))
      tbl (markMessagesAsSeen false v p tbl) :=
  ⟨markMessagesAsSeen_hidden v p tbl, markMessagesAsSeen_idem v p tbl,
   markMessagesAsSeen_complete v p tbl, markMessagesAsSeen_monotone v p tbl⟩

/-- C7 (witness): idempotence and completeness at a concrete table. -/
theorem C7_witness :
    markMessagesAsSeen false ("bob".data) ("alice".data)
        (markMessagesAsSeen false ("bob".data) ("alice".data) [msgA]) =
      markMessagesAsSeen false ("bob".data) ("alice".data) [msgA] ∧
    ({ msgA with is_seen := true } : Message).is_seen = true :=
  ⟨(C7_prop ("bob".data) ("alice".data) [msgA]).2.1,
   (C7_prop ("bob".data) ("alice".data) [msgA]).2.2.1
     { msgA with is_seen := true } (by decide) (by decide) (by decide)⟩

/-- C8: the group typing indicator renders nothing for zero typists,
"name is typing..." for one, "a and b are typing..." for two, and
"N people are typing..." for more than two. -/
theorem C8_prop (names : List (List Char)) (a b : List Char) :
    typingIndicatorText [] = none ∧
    typingIndicatorText [a] = some (a ++ " is typing...".data) ∧
    typingIndicatorText [a, b] =
      some (a ++ " and ".data ++ b ++ " are typing...".data) ∧
    (2 < names.length → typingIndicatorText names =
      some (natToDigits names.length ++ " people are typing...".data)) := by
  refine ⟨rfl, ?_, ?_, ?_⟩
  · show some (a ++ " is".data ++ " typing...".data) =
      some (a ++ " is typing...".data)
    rw [List.append_assoc]
    exact congrArg (fun t => some (a ++ t)) (by decide)
  · show some (a ++ " and ".data ++ b ++ " are".data ++ " typing...".data) =
      some (a ++ " and ".data ++ b ++ " are typing...".data)
    rw [List.append_assoc (a ++ " and ".data ++ b)]
    exact congrArg (fun t => some (a ++ " and ".data ++ b ++ t)) (by decide)
  · intro h
    unfold typingIndicatorText
    rw [if_neg (by omega), if_pos (by omega)]

/-- C8 (witness): three concrete typists render the count text. -/
theorem C8_witness :
    typingIndicatorText ["Ann".data, "Bob".data, "Cal".data] =
      some (natToDigits 3 ++ " people are typing...".data) :=
  (C8_prop ["Ann".data, "Bob".data, "Cal".data] [] []).2.2.2 (by decide)

/-- C9: the inbox INSERT handler is incremental.  If an entry for the
peer of the new message exists, that entry gets the new message as its
last_message and moves to the head, while all other entries keep their
relative order (the tail is the order-preserving filter of the previous
list); if no entry exists, a new entry built from the fetched profile is
inserted at the head above the unchanged list. -/
theorem C9_prop (userId : List Char) (convos : List Conversation)
    (m : Message) (pr : Profile) :
    (∀ c0, convos.find? (fun c => c.profile.id == otherUser userId m) = some c0 →
      inboxInsertHandler userId convos m (some pr) =
        ⟨c0.profile, m⟩ ::
          convos.filter (fun c => c.profile.id != otherUser userId m) ∧
      (convos.filter (fun c => c.profile.id != otherUser userId m)).Sublist
        convos) ∧
    (convos.find? (fun c => c.profile.id == otherUser userId m) = none →
      inboxInsertHandler userId convos m (some pr) = ⟨pr, m⟩ :: convos) :=
  ⟨fun c0 hf =>
    ⟨inboxInsertHandler_found userId convos m (some pr) c0 hf,
     List.filter_sublist convos⟩,
   fun hf => inboxInsertHandler_new userId convos m pr hf⟩

/-- C9 (witness): an existing entry for the peer moves to the head with
the new message as preview. -/
theorem C9_witness :
    inboxInsertHandler ("bob".data) [convoAlice] msgB (some profBob) =
      ⟨convoAlice.profile, msgB⟩ ::
        [convoAlice].filter
          (fun c => c.profile.id != otherUser ("bob".data) msgB) ∧
    ([convoAlice].filter
      (fun c => c.profile.id != otherUser ("bob".data) msgB)).Sublist
      [convoAlice] :=
  (C9_prop ("bob".data) [convoAlice] msgB profBob).1 convoAlice (by decide)

/-- C10: decoding absent content.  A null content column and the empty
string both decode to a null envelope with the empty string as main
content; in particular null is normalized to the empty string. -/
theorem C10_prop :
    parseReply none = (none, []) ∧ parseReply (some []) = (none, []) :=
  ⟨rfl, rfl⟩

end Univibe
